import Mathlib

/-!
Verification of khal's recurrence expansion (`khal/khalendar/aux.py`) and
SQLite event cache (`khal/khalendar/backend.py`).

Shallow embedding conventions:
* A Python `date` / naive `datetime` / tz-aware `datetime` value is a `Dtv`.
  Time is measured in minutes; a `date` is a day count, and the naive reading
  of a `datetime` is minutes since the epoch.  A timezone (pytz object) is
  modelled as a fixed UTC offset in minutes, which is faithful for
  non-DST-transitioning use; the process-local timezone (used by
  `astimezone(None)`) is modelled as offset 0.
* `dateutil.rrule` is an external collaborator; it is modelled for plain
  FREQ/INTERVAL/COUNT/UNTIL rules as the arithmetic sequence of start
  instants `dtstart, dtstart+step, ...` bounded by COUNT and/or the
  (inclusive) UNTIL instant.
* SQLite tables are lists of rows in insertion order.  `INSERT OR REPLACE`
  deletes rows violating a UNIQUE constraint and appends the new row; on a
  table with no UNIQUE constraint it plainly appends.  Statements executed
  with `commit=False` become visible to readers only at the next `commit`,
  so a failing call leaves the last committed state.
* Fallible Python code returns `Except`.  Expressions Python would crash on
  (e.g. `date.date()`, `localize` of an already-aware datetime) return a
  distinguished error.
-/

namespace Khal

/-- A Python date/datetime value as it appears in an icalendar property:
`date d` is a calendar date (day number), `naive t` a naive datetime
(minutes), `aware tz t` a tz-aware datetime whose wall-clock reading is `t`
minutes in a fixed-offset timezone of `tz` minutes east of UTC. -/
inductive Dtv : Type where
  | date (d : Int)
  | naive (t : Int)
  | aware (tz : Int) (t : Int)
deriving DecidableEq, Repr

/-- Wall-clock reading in minutes (what `timetuple`-style field access sees);
a date reads as its midnight. -/
def Dtv.wall : Dtv → Int
  | .date d => d * 1440
  | .naive t => t
  | .aware _ t => t

/-- `aux.to_unix_time`: convert to UTC (minutes in this model); a naive
datetime or date is read as already being UTC by `calendar.timegm`. -/
def Dtv.utc : Dtv → Int
  | .date d => d * 1440
  | .naive t => t
  | .aware tz t => t - tz

/-- Python `+ timedelta(minutes = m)`.  `date + timedelta` keeps only whole
days (floor), like Python. -/
def Dtv.add : Dtv → Int → Dtv
  | .date d, m => .date (d + Int.fdiv m 1440)
  | .naive t, m => .naive (t + m)
  | .aware tz t, m => .aware tz (t + m)

/-- Python datetime subtraction, in minutes.  For the well-typed pairs the
source produces (date−date, naive−naive, aware−aware) this is exactly the
Python result; ill-typed pairs would raise in Python. -/
def Dtv.sub (a b : Dtv) : Int := a.utc - b.utc

/-- `strftime('%Y%m%d')` as a sort key: the wall-clock calendar day.
(The real code stores the YYYYMMDD string, compared numerically by SQLite;
day numbers are order-isomorphic to that encoding.) -/
def Dtv.allKey : Dtv → Int
  | .date d => d
  | .naive t => Int.fdiv t 1440
  | .aware _ t => Int.fdiv t 1440

/-- A parsed RRULE restricted to the shape the model supports:
`step` = FREQ/INTERVAL expressed in minutes, optional COUNT, optional
UNTIL value. -/
structure RRule : Type where
  step : Int
  count : Option Nat
  untilDt : Option Dtv
deriving DecidableEq, Repr

/-- One parsed VEVENT component, with exactly the properties
`aux.expand`/`aux.sanitize`/`backend._update_one` read.  `tzidParam` is
whether the DTSTART property carries a `TZID` parameter (used when icalendar
failed to resolve the timezone and left the value naive). -/
structure VEvent : Type where
  dtstart : Dtv
  tzidParam : Bool
  dtend : Option Dtv
  duration : Option Int
  rrule : Option RRule
  rdate : Option (List Dtv)
  exdate : Option (List Dtv)
  recurrenceId : Option Dtv
deriving DecidableEq, Repr

/-- Errors `aux.expand` can raise.  `unsupportedRecursion` is the declared
failure; the others are the Python exceptions the post-processing steps
raise on ill-typed date lists. -/
inductive ExpandError : Type where
  | unsupportedRecursion
  | typeError
  | valueError
  | attrError
deriving DecidableEq, Repr

/-- `aux.py` line 42: all-day iff DTSTART is not a datetime. -/
def isAllday (v : VEvent) : Bool :=
  match v.dtstart with
  | .date _ => true
  | _ => false

/-- `aux.py` lines 36-39: the duration, computed once, from DURATION if
present otherwise DTEND − DTSTART. -/
def durationOf (v : VEvent) : Int :=
  match v.duration with
  | some d => d
  | none => Dtv.sub (v.dtend.getD v.dtstart) v.dtstart

/-- `aux.py` lines 45-47: the DTSTART value after attaching `default_tz`
to a naive datetime start that carries a TZID parameter. -/
def attachStart (v : VEvent) (dtz : Int) : Dtv :=
  match v.dtstart with
  | .naive t => if v.tzidParam then .aware dtz t else .naive t
  | x => x

/-- The mutation of lines 45-47 applied to the whole vevent. -/
def attachDefaultTz (v : VEvent) (dtz : Int) : VEvent :=
  { v with dtstart := attachStart v dtz }

/-- `aux.py` line 53-57: the remembered `events_tz` (set only when the
possibly-localized start is tz-aware). -/
def eventsTzOf (v : VEvent) (dtz : Int) : Option Int :=
  match attachStart v dtz with
  | .aware tz _ => some tz
  | _ => none

/-- `replace(tzinfo=None)` on the start (line 58); identity on dates and
naive datetimes, for which the code skips the strip. -/
def stripStart : Dtv → Dtv
  | .aware _ t => .naive t
  | x => x

/-- The mutation of line 58 applied to the whole vevent. -/
def stripTz (v : VEvent) : VEvent :=
  { v with dtstart := stripStart v.dtstart }

/-- `aux.localize_strip_tz` on one value: convert a tz-aware value into
`timezone` (the process timezone, offset 0, when `timezone` is `None`) and
drop the tzinfo; dates and naive datetimes pass through. -/
def stripDtv (etz : Option Int) : Dtv → Dtv
  | .aware tz0 t => .naive (t - tz0 + etz.getD 0)
  | x => x

/-- Number of instants `dateutil.rrule` yields for dtstart `s`, step
`step`, optional COUNT and optional (inclusive, naive) UNTIL. -/
def rruleCount (s step : Int) (count : Option Nat) (untilv : Option Int) : Nat :=
  let byUntil : Option Nat :=
    untilv.map (fun u => if u < s then 0 else (u - s).toNat / step.toNat + 1)
  match count, byUntil with
  | some c, some m => min c m
  | some c, none => c
  | none, some m => m
  | none, none => 0

/-- The instants `list(rrule)` yields (naive minutes), in order. -/
def rruleList (s step : Int) (count : Option Nat) (untilv : Option Int) : List Int :=
  if step ≤ 0 then []
  else (List.range (rruleCount s step count untilv)).map
    (fun (i : Nat) => s + step * (i : Int))

/-- `aux.py` lines 60-78: evaluate the RRULE from the (stripped) start,
imposing the synthetic 15*365-day horizon when the rule has neither COUNT
nor UNTIL, and converting a tz-aware UNTIL into the event's naive frame.
Returns `[]` when the vevent has no RRULE (the branch is then not taken). -/
def ruleInstants (v : VEvent) (dtz : Int) : List Int :=
  match v.rrule with
  | none => []
  | some r =>
    let s := (stripStart (attachStart v dtz)).wall
    let u0 : Option Dtv :=
      if r.count = none ∧ r.untilDt = none then some (.naive (s + 15 * 365 * 1440))
      else r.untilDt
    let u : Option Int := u0.map (fun d =>
      match d with
      | .aware tz0 t => t - tz0 + (eventsTzOf v dtz).getD 0
      | x => x.wall)
    rruleList s r.step r.count u

/-- `aux.py` lines 60-92: the candidate start list before EXDATE removal:
rule instants (as naive datetimes) when an RRULE is present, otherwise the
(stripped) DTSTART; plus the stripped RDATE values. -/
def preList (v : VEvent) (dtz : Int) : List Dtv :=
  (match v.rrule with
   | some _ => (ruleInstants v dtz).map Dtv.naive
   | none => [stripStart (attachStart v dtz)])
  ++ (v.rdate.getD []).map (stripDtv (eventsTzOf v dtz))

/-- `aux.py` lines 95-102: the stripped EXDATE values. -/
def exdatesOf (v : VEvent) (dtz : Int) : List Dtv :=
  (v.exdate.getD []).map (stripDtv (eventsTzOf v dtz))

/-- A left-to-right fallible map, as a Python list comprehension that can
raise on an element. -/
def mapOk (f : Dtv → Except ExpandError Dtv) : List Dtv → Except ExpandError (List Dtv)
  | [] => .ok []
  | x :: xs =>
    match f x with
    | .error e => .error e
    | .ok y =>
      match mapOk f xs with
      | .error e => .error e
      | .ok ys => .ok (y :: ys)

/-- `events_tz.localize` on one value (aux.py line 106): attach the
timezone to a naive datetime; `pytz.localize` raises TypeError on a date
(no `replace(tzinfo=...)`) and ValueError on an already-aware datetime. -/
def localizeOne (tz : Int) : Dtv → Except ExpandError Dtv
  | .naive t => .ok (.aware tz t)
  | .date _ => .error .typeError
  | .aware _ _ => .error .valueError

/-- `.date()` on one value (aux.py line 108): truncate a datetime to its
wall-clock calendar date; a date has no `.date()` attribute. -/
def dateOne : Dtv → Except ExpandError Dtv
  | .naive t => .ok (.date (Int.fdiv t 1440))
  | .aware _ t => .ok (.date (Int.fdiv t 1440))
  | .date _ => .error .attrError

/-- `aux.py` lines 105-108: re-attach the remembered timezone to every
surviving instant, or truncate to a calendar date for all-day events. -/
def relocalize (etz : Option Int) (allday : Bool) (l : List Dtv) :
    Except ExpandError (List Dtv) :=
  match etz with
  | some tz => mapOk (localizeOne tz) l
  | none => if allday then mapOk dateOne l else .ok l

/-- `aux.py` lines 110-113: `list(set(...))` then `sort()`: de-duplicate
and sort ascending (by wall-clock reading; the lists this is applied to are
homogeneous, where this order coincides with Python's). -/
def sortedDedup (l : List Dtv) : List Dtv :=
  List.insertionSort (fun a b => a.wall ≤ b.wall) l.dedup

/-- `aux.py` line 103: the candidate list after removing excluded dates. -/
def filteredList (v : VEvent) (dtz : Int) : List Dtv :=
  (preList v dtz).filter (fun s => s ∉ exdatesOf v dtz)

/-- `aux.expand`, as a state-passing function: returns the (mutated) vevent
together with the result.  The vevent argument is mutated in the source
(DTSTART localization at line 47, tz strip at line 58), so the first
component records the vevent the caller is left holding. -/
def expand (v : VEvent) (dtz : Int) :
    VEvent × Except ExpandError (List (Dtv × Dtv)) :=
  let dur := durationOf v
  let v1 := attachDefaultTz v dtz
  if v.rrule = none ∧ v.rdate = none then
    (v1, .ok [(v1.dtstart, v1.dtstart.add dur)])
  else
    let v2 := stripTz v1
    if v.rrule.isSome ∧ ruleInstants v dtz = [] then
      (v2, .error .unsupportedRecursion)
    else
      match relocalize (eventsTzOf v dtz) (isAllday v) (filteredList v dtz) with
      | .error e => (v2, .error e)
      | .ok l2 => (v2, .ok ((sortedDedup l2).map (fun s => (s, s.add dur))))

/-- The DTSTART value the caller's vevent holds after `expand` returns:
possibly localized to the default timezone, and stripped to naive whenever
the recurrence path was taken. -/
def dtstartAfter (v : VEvent) (dtz : Int) : Dtv :=
  if v.rrule = none ∧ v.rdate = none then attachStart v dtz
  else stripStart (attachStart v dtz)

/-- `aux.sanitize`: an event with neither DTEND nor DURATION becomes an
all-day event lasting one day (a datetime start is truncated to its date,
and DTEND = DTSTART + 1 day is added). -/
def sanitize (v : VEvent) : VEvent :=
  if v.dtend = none ∧ v.duration = none then
    let ds := match v.dtstart with
      | .naive t => Dtv.date (Int.fdiv t 1440)
      | .aware _ t => Dtv.date (Int.fdiv t 1440)
      | x => x
    { v with dtstart := ds, dtend := some (ds.add 1440) }
  else v

/-- A row of the `accounts` collection-registry table. -/
structure AccountRow : Type where
  account : String
  resource : String
  ctag : Option String
deriving DecidableEq, Repr

/-- A row of the per-calendar master table `$CAL_m`
(`recuid TEXT UNIQUE`); the serialized vevent is kept as the parsed value. -/
structure MRow : Type where
  href : String
  recuid : String
  etag : String
  vevent : VEvent
deriving DecidableEq, Repr

/-- A row of an occurrence-index table `$CAL_d` / `$CAL_dt`
(no UNIQUE constraint).  For the all-day table `dtstart`/`dtend` are day
numbers (order-isomorphic to the stored YYYYMMDD strings); for the timed
table they are UTC minutes. -/
structure ORow : Type where
  dtstart : Int
  dtend : Int
  href : String
  recuid : String
deriving DecidableEq, Repr

/-- The committed state of one khal SQLite store, restricted to a single
calendar.  `version`/`accounts` are `none` when the table does not exist
(a SELECT on them would raise `OperationalError`); `calTables` records
whether the three per-calendar tables have been created. -/
structure DB : Type where
  version : Option (List Int)
  accounts : Option (List AccountRow)
  calTables : Bool
  table_m : List MRow
  table_d : List ORow
  table_dt : List ORow
deriving DecidableEq, Repr

/-- `backend.py` line 77: the current schema version. -/
def DB_VERSION : Int := 3

/-- The errors the backend raises in the modelled paths. -/
inductive DbError : Type where
  | outdatedDbVersion
  | updateFailed
  | operationalError
  | expandErr (e : ExpandError)
deriving DecidableEq, Repr

/-- `SQLiteDb._check_table_version`: read the version marker; stamp
`DB_VERSION` if the table is empty; raise `OutdatedDbVersionError` on a
mismatching first row.  Returns the store state alongside the outcome, so
the state at the moment of a raise is observable. -/
def checkTableVersion (db : DB) : DB × Option DbError :=
  match db.version with
  | none => (db, some .operationalError)
  | some [] => ({ db with version := some [DB_VERSION] }, none)
  | some (r :: _) =>
    if r = DB_VERSION then (db, none) else (db, some .outdatedDbVersion)

/-- `SQLiteDb._create_default_tables`: CREATE TABLE IF NOT EXISTS for the
`version` and `accounts` tables (and commit), then `_check_table_version`. -/
def createDefaultTables (db : DB) : DB × Option DbError :=
  let db1 : DB := { db with version := some (db.version.getD []) }
  let db2 : DB := { db1 with accounts := some (db1.accounts.getD []) }
  checkTableVersion db2

/-- `SQLiteDb.create_account_table`: if the registry already has a row for
this calendar do nothing; otherwise create the three per-calendar tables
and insert the registry row. -/
def createAccountTable (cal : String) (db : DB) : DB :=
  let rows := db.accounts.getD []
  if (rows.filter (fun a => a.account = cal ∧ a.resource = "")).length ≠ 0 then db
  else
    { db with
      calTables := true
      accounts := some (rows ++ [⟨cal, "", none⟩]) }

/-- `SQLiteDb.__init__` after connecting: `_create_default_tables` (which
ends in a version check), `_check_table_version` again, then
`create_account_table`.  The returned state is the store at the end of the
call, also when it raised. -/
def sqliteInit (cal : String) (db : DB) : DB × Option DbError :=
  match createDefaultTables db with
  | (db1, some e) => (db1, some e)
  | (db1, none) =>
    match checkTableVersion db1 with
    | (db2, some e) => (db2, some e)
    | (db2, none) => (createAccountTable cal db2, none)

/-- One SQL write performed by `_update_one`, in program order. -/
inductive Stmt : Type where
  | delD (recuid : String)
  | delM (recuid : String)
  | insD (s e : Int) (href recuid : String)
  | insDt (s e : Int) (href recuid : String)
  | insM (ev : VEvent) (etag href recuid : String)
deriving DecidableEq, Repr

/-- Effect of one statement on the store.  The `INSERT OR REPLACE`
statements pass `COALESCE((SELECT recuid ...), ?)` for the recuid column,
which in all cases evaluates to the given recuid; OR REPLACE deletes
conflicting rows only on the master table, whose `recuid` is UNIQUE — the
occurrence tables have no constraint, so there it appends plainly. -/
def applyStmt (db : DB) : Stmt → DB
  | .delD r => { db with table_d := db.table_d.filter (fun x => ¬ x.recuid = r) }
  | .delM r => { db with table_m := db.table_m.filter (fun x => ¬ x.recuid = r) }
  | .insD s e h r => { db with table_d := db.table_d ++ [⟨s, e, h, r⟩] }
  | .insDt s e h r => { db with table_dt := db.table_dt ++ [⟨s, e, h, r⟩] }
  | .insM ev et h r =>
    { db with table_m := (db.table_m.filter (fun x => ¬ x.recuid = r)) ++ [⟨h, r, et, ev⟩] }

/-- `aux.to_unix_time` (minutes model). -/
def to_unix_time (d : Dtv) : Int := d.utc

/-- `backend.py` lines 260-262: the OccurrenceId — the href, suffixed with
the RECURRENCE-ID override instant's unix time when present. -/
def recuidOf (v : VEvent) (href : String) : String :=
  match v.recurrenceId with
  | some d => href ++ toString (to_unix_time d)
  | none => href

/-- `backend.py` lines 274-297: the occurrence-row insert for one expanded
interval — into the all-day table keyed by wall-clock day, or into the
timed table keyed by UTC minutes after localizing naive bounds to the
default timezone. -/
def occStmt (allday : Bool) (dtz : Int) (href recuid : String) (p : Dtv × Dtv) : Stmt :=
  if allday then .insD p.1.allKey p.2.allKey href recuid
  else
    let ds := match p.1 with | .naive t => Dtv.aware dtz t | x => x
    let de := match p.2 with | .naive t => Dtv.aware dtz t | x => x
    .insDt (to_unix_time ds) (to_unix_time de) href recuid

/-- `_update_one` as a write plan: sanitize, derive the OccurrenceId and
all-day flag, expand (which may raise, before any write), then the ordered
writes: delete existing rows from the all-day and master tables (only
those two!), insert one occurrence row per interval, insert the master row
holding the (expand-mutated) vevent. -/
def updateOnePlan (v : VEvent) (href etag : String) (dtz : Int) :
    Except ExpandError (List Stmt) :=
  let v1 := sanitize v
  let recuid := recuidOf v1 href
  let allday := isAllday v1
  match expand v1 dtz with
  | (_, .error e) => .error e
  | (v2, .ok dtstartend) =>
    .ok ([Stmt.delD recuid, Stmt.delM recuid]
      ++ dtstartend.map (occStmt allday dtz href recuid)
      ++ [Stmt.insM v2 etag href recuid])

/-- Run the components of one `update` call.  Every statement of one
`_update_one` runs with `commit=False` and one `conn.commit()` ends the
component, so a failure at the `failAt`-th remaining write (globally
indexed across the call) leaves the committed store as it was before that
component; fully processed earlier components stay committed.  The Bool
reports whether the call completed. -/
def updateRun (dtz : Int) (href etag : String) :
    List VEvent → Option Nat → DB → DB × Bool
  | [], _, db => (db, true)
  | v :: rest, failAt, db =>
    match updateOnePlan v href etag dtz with
    | .error _ => (db, false)
    | .ok stmts =>
      match failAt with
      | some k =>
        if k < stmts.length then (db, false)
        else updateRun dtz href etag rest (some (k - stmts.length)) (stmts.foldl applyStmt db)
      | none => updateRun dtz href etag rest none (stmts.foldl applyStmt db)

/-- `SQLiteDb.update`: raise `UpdateFailed` when the record parses into no
VEVENT component, otherwise `_update_one` for each component in order. -/
def update (dtz : Int) (href etag : String) (comps : List VEvent)
    (failAt : Option Nat) (db : DB) : DB × Bool :=
  if comps.isEmpty then (db, false) else updateRun dtz href etag comps failAt db

/-- `SQLiteDb.get_ctag`: the ctag of this calendar's registry row; the
`IndexError` of an absent row is caught and yields `None` (a raise can
come only from the accounts table itself missing). -/
def get_ctag (cal : String) (db : DB) : Except DbError (Option String) :=
  match db.accounts with
  | none => .error .operationalError
  | some rows => .ok (((rows.filter (fun a => a.account = cal)).head?).bind (fun a => a.ctag))

/-- `SQLiteDb.get_etag`: the etag of the first master row matching the
href; the `IndexError` of an absent row is caught and yields `None`. -/
def get_etag (href : String) (db : DB) : Except DbError (Option String) :=
  if db.calTables then
    .ok (((db.table_m.filter (fun m => m.href = href)).head?).map (fun m => m.etag))
  else .error .operationalError

/-- `SQLiteDb.get_allday_range` up to hydration: the all-day index rows
whose interval passes the three-clause overlap test against
`[start, end)`, with `end` defaulting to `start + 1` day. -/
def get_allday_range (db : DB) (start : Int) (endOpt : Option Int) : List ORow :=
  let dend := endOpt.getD (start + 1)
  db.table_d.filter (fun r =>
    decide ((r.dtstart ≥ start ∧ r.dtstart < dend) ∨
      (r.dtend > start ∧ r.dtend ≤ dend) ∨
      (r.dtstart ≤ start ∧ r.dtend > start)))

/-! Concrete fixtures used by the counterexamples and witnesses.
Day 16169 is 2014-04-09 (so 16170 is 2014-04-10); minute values are small
representative instants. -/

/-- A freshly opened store for calendar `"cal"` (version stamped, registry
row present, per-calendar tables created, no events). -/
def dbInit : DB :=
  { version := some [DB_VERSION], accounts := some [⟨"cal", "", none⟩],
    calTables := true, table_m := [], table_d := [], table_dt := [] }

/-- An outdated store: version marker `2`, and no `accounts` table (as a
store written by an old layout may lack it). -/
def dbOld : DB :=
  { version := some [2], accounts := none,
    calTables := false, table_m := [], table_d := [], table_dt := [] }

/-- A plain timed event, 10:00-11:00 naive, no recurrence. -/
def evT1 : VEvent :=
  { dtstart := .naive 600, tzidParam := false, dtend := some (.naive 660),
    duration := none, rrule := none, rdate := none, exdate := none,
    recurrenceId := none }

/-- The same event as a RECURRENCE-ID override component (distinct
OccurrenceId from `evT1` under the same href). -/
def evT2 : VEvent := { evT1 with recurrenceId := some (.naive 600) }

/-- A recurring event whose single rule instant is excluded by EXDATE:
COUNT=1 daily rule starting 10:00, EXDATE that same instant. -/
def evC3 : VEvent :=
  { evT1 with rrule := some ⟨1440, some 1, none⟩, exdate := some [.naive 600] }

/-- An unbounded rule (neither COUNT nor UNTIL; step chosen large so the
15-year horizon admits a single instant) together with an RDATE far beyond
the 15-year horizon. -/
def evC6 : VEvent :=
  { evT1 with rrule := some ⟨10000000, none, none⟩, rdate := some [.naive 10000000] }

/-- The same unbounded rule without extra dates. -/
def evC6w : VEvent := { evT1 with rrule := some ⟨10000000, none, none⟩ }

/-- An all-day event (2014-04-09, exclusive end 2014-04-10) with an hourly
COUNT=2 rule, whose two instants fall on the same calendar date, and an
EXDATE hitting the second instant (minute 23283420 = day 16169, 00:60). -/
def evC7a : VEvent :=
  { dtstart := .date 16169, tzidParam := false, dtend := some (.date 16170),
    duration := none, rrule := some ⟨60, some 2, none⟩, rdate := none,
    exdate := some [.naive 23283420], recurrenceId := none }

/-- `evC7a` without the EXDATE. -/
def evC7b : VEvent := { evC7a with exdate := none }

/-- A timed daily COUNT=2 rule used to witness exact-removal of an excluded
instant. -/
def evC7w : VEvent := { evT1 with rrule := some ⟨1440, some 2, none⟩ }

/-- A tz-aware recurring event (offset +60): expansion strips its start. -/
def evC8 : VEvent :=
  { dtstart := .aware 60 600, tzidParam := false, dtend := some (.aware 60 660),
    duration := none, rrule := some ⟨1440, some 2, none⟩, rdate := none,
    exdate := none, recurrenceId := none }

/-- The all-day event of the range-query claim: 2014-04-09 with exclusive
end 2014-04-10. -/
def evC9 : VEvent :=
  { dtstart := .date 16169, tzidParam := false, dtend := some (.date 16170),
    duration := none, rrule := none, rdate := none, exdate := none,
    recurrenceId := none }

/-- The store after storing `evC9` under href `"h9"`. -/
def dbC9 : DB := (update 0 "h9" "" [evC9] none dbInit).1

/-- The store after one `update` of the timed event `evT1`. -/
def dbOnce : DB := (update 0 "h" "" [evT1] none dbInit).1

/-- The store after a second, identical `update` of `evT1`. -/
def dbTwice : DB := (update 0 "h" "" [evT1] none dbOnce).1

/-! ## Helper lemmas -/

theorem mapOk_error_mem (f : Dtv → Except ExpandError Dtv) :
    ∀ (l : List Dtv) (e : ExpandError), mapOk f l = .error e →
      ∃ x ∈ l, f x = .error e := by
  intro l
  induction l with
  | nil => intro e h; simp [mapOk] at h
  | cons x xs ih =>
    intro e h
    unfold mapOk at h
    rcases hf : f x with e1 | y
    · rw [hf] at h
      injection h with h2
      exact ⟨x, List.mem_cons_self x xs, h2 ▸ hf⟩
    · rw [hf] at h
      rcases hm : mapOk f xs with e2 | ys
      · rw [hm] at h
        injection h with h2
        obtain ⟨z, hz, hfz⟩ := ih e2 hm
        exact ⟨z, List.mem_cons_of_mem x hz, h2 ▸ hfz⟩
      · rw [hm] at h
        cases h

theorem mapOk_ok_mem (f : Dtv → Except ExpandError Dtv) :
    ∀ (l l2 : List Dtv), mapOk f l = .ok l2 →
      ∀ y ∈ l2, ∃ x ∈ l, f x = .ok y := by
  intro l
  induction l with
  | nil =>
    intro l2 h y hy
    unfold mapOk at h
    cases h
    simp at hy
  | cons x xs ih =>
    intro l2 h y hy
    unfold mapOk at h
    rcases hf : f x with e1 | z
    · rw [hf] at h; cases h
    · rw [hf] at h
      rcases hm : mapOk f xs with e2 | ys
      · rw [hm] at h; cases h
      · rw [hm] at h
        cases h
        rcases List.mem_cons.mp hy with hy1 | hy2
        · exact ⟨x, List.mem_cons_self x xs, hy1 ▸ hf⟩
        · obtain ⟨w, hw, hfw⟩ := ih ys hm y hy2
          exact ⟨w, List.mem_cons_of_mem x hw, hfw⟩

theorem fdiv_day_wall_le (t : Int) : Int.fdiv t 1440 * 1440 ≤ t := by
  rw [Int.fdiv_eq_ediv t (by norm_num : (0:Int) ≤ 1440)]
  exact Int.ediv_mul_le t (by norm_num)

theorem relocalize_error_ne (etz : Option Int) (ad : Bool) (l : List Dtv)
    (e : ExpandError) (h : relocalize etz ad l = .error e) :
    e ≠ .unsupportedRecursion := by
  unfold relocalize at h
  rcases etz with _ | tz
  · rcases had : ad with _ | _
    · rw [had] at h
      simp at h
    · rw [had] at h
      rw [if_pos rfl] at h
      obtain ⟨x, _, hx⟩ := mapOk_error_mem _ _ _ h
      rcases x with d | t | ⟨tz0, t⟩
      · have hx2 : (Except.error ExpandError.attrError : Except ExpandError Dtv) =
            Except.error e := hx
        injection hx2 with h2
        rw [← h2]
        intro hcon
        cases hcon
      · have hx2 : (Except.ok (Dtv.date (Int.fdiv t 1440)) : Except ExpandError Dtv) =
            Except.error e := hx
        cases hx2
      · have hx2 : (Except.ok (Dtv.date (Int.fdiv t 1440)) : Except ExpandError Dtv) =
            Except.error e := hx
        cases hx2
  · obtain ⟨x, _, hx⟩ := mapOk_error_mem _ _ _ h
    rcases x with d | t | ⟨tz0, t⟩
    · have hx2 : (Except.error ExpandError.typeError : Except ExpandError Dtv) =
          Except.error e := hx
      injection hx2 with h2
      rw [← h2]
      intro hcon
      cases hcon
    · have hx2 : (Except.ok (Dtv.aware tz t) : Except ExpandError Dtv) =
          Except.error e := hx
      cases hx2
    · have hx2 : (Except.error ExpandError.valueError : Except ExpandError Dtv) =
          Except.error e := hx
      injection hx2 with h2
      rw [← h2]
      intro hcon
      cases hcon

theorem relocalize_wall_le (etz : Option Int) (ad : Bool) (l l2 : List Dtv)
    (h : relocalize etz ad l = .ok l2) :
    ∀ y ∈ l2, ∃ x ∈ l, y.wall ≤ x.wall := by
  intro y hy
  unfold relocalize at h
  rcases etz with _ | tz
  · rcases had : ad with _ | _
    · rw [had] at h
      rw [if_neg (by simp)] at h
      injection h with h2
      exact ⟨y, h2 ▸ hy, le_refl _⟩
    · rw [had] at h
      rw [if_pos rfl] at h
      obtain ⟨x, hx, hfx⟩ := mapOk_ok_mem _ _ _ h y hy
      refine ⟨x, hx, ?_⟩
      rcases x with d | t | ⟨tz0, t⟩
      · have hx2 : (Except.error ExpandError.attrError : Except ExpandError Dtv) =
            Except.ok y := hfx
        cases hx2
      · have hx2 : (Except.ok (Dtv.date (Int.fdiv t 1440)) : Except ExpandError Dtv) =
            Except.ok y := hfx
        injection hx2 with h2
        rw [← h2]
        simpa [Dtv.wall] using fdiv_day_wall_le t
      · have hx2 : (Except.ok (Dtv.date (Int.fdiv t 1440)) : Except ExpandError Dtv) =
            Except.ok y := hfx
        injection hx2 with h2
        rw [← h2]
        simpa [Dtv.wall] using fdiv_day_wall_le t
  · obtain ⟨x, hx, hfx⟩ := mapOk_ok_mem _ _ _ h y hy
    refine ⟨x, hx, ?_⟩
    rcases x with d | t | ⟨tz0, t⟩
    · have hx2 : (Except.error ExpandError.typeError : Except ExpandError Dtv) =
          Except.ok y := hfx
      cases hx2
    · have hx2 : (Except.ok (Dtv.aware tz t) : Except ExpandError Dtv) =
          Except.ok y := hfx
      injection hx2 with h2
      rw [← h2]
      simp [Dtv.wall]
    · have hx2 : (Except.error ExpandError.valueError : Except ExpandError Dtv) =
          Except.ok y := hfx
      cases hx2

theorem mem_sortedDedup (l : List Dtv) (y : Dtv) :
    y ∈ sortedDedup l ↔ y ∈ l := by
  unfold sortedDedup
  rw [(List.perm_insertionSort _ _).mem_iff, List.mem_dedup]

theorem length_sortedDedup (l : List Dtv) :
    (sortedDedup l).length = l.dedup.length := by
  unfold sortedDedup
  exact List.length_insertionSort _ _

theorem mem_rruleList_le (s step : Int) (count : Option Nat) (u : Int)
    (hstep : 0 < step) (t : Int)
    (ht : t ∈ rruleList s step count (some u)) : t ≤ u := by
  unfold rruleList at ht
  rw [if_neg (not_le.mpr hstep)] at ht
  obtain ⟨i, hi0, hfi⟩ := List.mem_map.mp ht
  have hi : i < rruleCount s step count (some u) := List.mem_range.mp hi0
  rw [← hfi]
  have hcount : rruleCount s step count (some u) ≤
      (if u < s then 0 else (u - s).toNat / step.toNat + 1) := by
    unfold rruleCount
    rcases count with _ | c
    · simp
    · simp [min_le_right]
  by_cases hus : u < s
  · rw [if_pos hus] at hcount
    exact absurd (Nat.lt_of_lt_of_le hi hcount) (Nat.not_lt_zero i)
  · rw [if_neg hus] at hcount
    have hi2 : i ≤ (u - s).toNat / step.toNat :=
      Nat.lt_succ_iff.mp (Nat.lt_of_lt_of_le hi hcount)
    have hmul : step.toNat * i ≤ step.toNat * ((u - s).toNat / step.toNat) :=
      Nat.mul_le_mul_left _ hi2
    have hdiv : step.toNat * ((u - s).toNat / step.toNat) ≤ (u - s).toNat := by
      rw [Nat.mul_comm]
      exact Nat.div_mul_le_self _ _
    have h1 : (step.toNat : Int) * (i : Int) ≤ ((u - s).toNat : Int) := by
      exact_mod_cast Nat.le_trans hmul hdiv
    have hs1 : (step.toNat : Int) = step := Int.toNat_of_nonneg hstep.le
    have hs2 : ((u - s).toNat : Int) = u - s := Int.toNat_of_nonneg (by omega)
    rw [hs1, hs2] at h1
    linarith

theorem wall_strip_attach (v : VEvent) (dtz : Int) :
    (stripStart (attachStart v dtz)).wall = v.dtstart.wall := by
  rcases hds : v.dtstart with d | t | ⟨tz, t⟩
  · simp [attachStart, stripStart, hds]
  · by_cases htz : v.tzidParam <;>
      simp [attachStart, stripStart, hds, htz, Dtv.wall]
  · simp [attachStart, stripStart, hds, Dtv.wall]

theorem dedup_length_filter_ne {α : Type} [DecidableEq α] (l : List α) (d : α)
    (hd : d ∈ l) :
    ((l.filter (fun x => ¬ x = d)).dedup).length + 1 = l.dedup.length := by
  have h1 : (l.filter (fun x => ¬ x = d)).toFinset = l.toFinset.erase d := by
    ext a
    simp only [List.mem_toFinset, List.mem_filter, Finset.mem_erase,
      decide_eq_true_eq, and_comm]
  have h2 := Finset.card_erase_add_one (List.mem_toFinset.mpr hd)
  rw [← List.card_toFinset, ← List.card_toFinset, h1]
  exact h2

theorem mapOk_ok_forall (f : Dtv → Except ExpandError Dtv) :
    ∀ (l l2 : List Dtv), mapOk f l = .ok l2 → ∀ x ∈ l, ∃ y, f x = .ok y := by
  intro l
  induction l with
  | nil =>
    intro l2 h x hx
    simp at hx
  | cons a as ih =>
    intro l2 h x hx
    unfold mapOk at h
    rcases hf : f a with e | y
    · rw [hf] at h
      cases h
    · rw [hf] at h
      rcases hm : mapOk f as with e2 | ys
      · rw [hm] at h
        cases h
      · rcases List.mem_cons.mp hx with rfl | hx2
        · exact ⟨y, hf⟩
        · exact ih ys hm x hx2

theorem mapOk_eq_map (f : Dtv → Except ExpandError Dtv) (g : Dtv → Dtv) :
    ∀ (l : List Dtv), (∀ x ∈ l, f x = .ok (g x)) → mapOk f l = .ok (l.map g) := by
  intro l
  induction l with
  | nil =>
    intro _
    rfl
  | cons a as ih =>
    intro hpt
    have ha := hpt a (List.mem_cons_self a as)
    have has : ∀ x ∈ as, f x = .ok (g x) := fun x hx => hpt x (List.mem_cons_of_mem a hx)
    simp [mapOk, ha, ih has]

theorem dedup_length_map_injOn {α β : Type} [DecidableEq α] [DecidableEq β]
    (l : List α) (g : α → β)
    (hinj : ∀ x ∈ l, ∀ y ∈ l, g x = g y → x = y) :
    ((l.map g).dedup).length = l.dedup.length := by
  have hmt : (l.map g).toFinset = l.toFinset.image g := by
    ext b
    simp [List.mem_map]
  rw [← List.card_toFinset, ← List.card_toFinset, hmt]
  apply Finset.card_image_of_injOn
  intro x hx y hy hxy
  exact hinj x (List.mem_toFinset.mp (Finset.mem_coe.mp hx))
    y (List.mem_toFinset.mp (Finset.mem_coe.mp hy)) hxy

theorem relocalize_filter_length (etz : Option Int) (fl : List Dtv) (ds : Dtv)
    (l0 : List Dtv) (hrel : relocalize etz false fl = .ok l0) (hds : ds ∈ fl) :
    ∃ l1, relocalize etz false (fl.filter (fun x => ¬ x = ds)) = .ok l1 ∧
      l1.dedup.length + 1 = l0.dedup.length := by
  cases etz with
  | none =>
    have h0 : (Except.ok fl : Except ExpandError (List Dtv)) = Except.ok l0 := hrel
    injection h0 with h0
    refine ⟨fl.filter (fun x => ¬ x = ds), rfl, ?_⟩
    rw [← h0]
    exact dedup_length_filter_ne fl ds hds
  | some tz =>
    have hrel2 : mapOk (localizeOne tz) fl = .ok l0 := hrel
    have hnv : ∀ x ∈ fl, ∃ t, x = Dtv.naive t := by
      intro x hx
      obtain ⟨y, hy⟩ := mapOk_ok_forall _ _ _ hrel2 x hx
      rcases x with d0 | t | ⟨tz0, t⟩
      · exact absurd hy (by simp [localizeOne])
      · exact ⟨t, rfl⟩
      · exact absurd hy (by simp [localizeOne])
    have hpt : ∀ x ∈ fl, localizeOne tz x = .ok (Dtv.aware tz x.wall) := by
      intro x hx
      obtain ⟨t, rfl⟩ := hnv x hx
      rfl
    have hl0 : l0 = fl.map (fun x => Dtv.aware tz x.wall) := by
      have hmap := mapOk_eq_map (localizeOne tz) (fun x => Dtv.aware tz x.wall) fl hpt
      rw [hrel2] at hmap
      injection hmap
    have hpt' : ∀ x ∈ fl.filter (fun x => ¬ x = ds),
        localizeOne tz x = .ok (Dtv.aware tz x.wall) :=
      fun x hx => hpt x (List.mem_of_mem_filter hx)
    refine ⟨(fl.filter (fun x => ¬ x = ds)).map (fun x => Dtv.aware tz x.wall),
      mapOk_eq_map _ _ _ hpt', ?_⟩
    have hinj : ∀ x ∈ fl, ∀ y ∈ fl,
        Dtv.aware tz x.wall = Dtv.aware tz y.wall → x = y := by
      intro x hx y hy hxy
      obtain ⟨tx, rfl⟩ := hnv x hx
      obtain ⟨ty, rfl⟩ := hnv y hy
      simpa [Dtv.wall] using hxy
    have hinj' : ∀ x ∈ fl.filter (fun x => ¬ x = ds), ∀ y ∈ fl.filter (fun x => ¬ x = ds),
        Dtv.aware tz x.wall = Dtv.aware tz y.wall → x = y :=
      fun x hx y hy =>
        hinj x (List.mem_of_mem_filter hx) y (List.mem_of_mem_filter hy)
    rw [hl0, dedup_length_map_injOn fl _ hinj,
      dedup_length_map_injOn (fl.filter (fun x => ¬ x = ds)) _ hinj']
    exact dedup_length_filter_ne fl ds hds

theorem expand_snd_branch (v : VEvent) (dtz : Int)
    (hb : ¬ (v.rrule = none ∧ v.rdate = none))
    (hc : ¬ (v.rrule.isSome ∧ ruleInstants v dtz = [])) :
    (expand v dtz).2 = (relocalize (eventsTzOf v dtz) (isAllday v)
      (filteredList v dtz)).map
      (fun l2 => (sortedDedup l2).map (fun s => (s, s.add (durationOf v)))) := by
  rcases hr : relocalize (eventsTzOf v dtz) (isAllday v)
      (filteredList v dtz) with e | l2 <;>
    simp [expand, hb, hc, hr, Except.map]

/-! ## Claim theorems -/

/-- C5: for every sanitized definition (duration derivable) with no
recurrence rule and no extra-occurrence dates, `expand` returns exactly one
interval (start, start + duration), where start is the definition's start
after step 2's default-timezone attachment and duration is the explicit
DURATION if present, otherwise DTEND − DTSTART. -/
theorem expand_nonrecurring (v : VEvent) (dtz : Int)
    (_hsan : v.duration.isSome ∨ v.dtend.isSome)
    (h1 : v.rrule = none) (h2 : v.rdate = none) :
    (expand v dtz).2 =
      .ok [(dtstartAfter v dtz, (dtstartAfter v dtz).add (durationOf v))] := by
  simp [expand, dtstartAfter, h1, h2, attachDefaultTz]

/-- Witness for C5 at the concrete non-recurring event `evT1`. -/
theorem expand_nonrecurring_w :
    (expand evT1 0).2 =
      .ok [(dtstartAfter evT1 0, (dtstartAfter evT1 0).add (durationOf evT1))] :=
  expand_nonrecurring evT1 0 (Or.inr rfl) rfl rfl

/-- C8 counterexample: `expand` is not a pure function of its inputs — on
the tz-aware recurring event `evC8` it hands back a mutated definition (the
start's timezone is stripped and never reattached to the input). -/
theorem expand_mutates_input : (expand evC8 0).1 ≠ evC8 := by decide

/-- C8 amended: `expand` is deterministic but mutates exactly the DTSTART
field of the caller's definition: the start is localized to the default
timezone when naive with an unresolved TZID, and stripped to naive whenever
the recurrence path is taken; all other fields are unchanged. -/
theorem expand_mutation_characterized (v : VEvent) (dtz : Int) :
    (expand v dtz).1 = { v with dtstart := dtstartAfter v dtz } := by
  by_cases hb : v.rrule = none ∧ v.rdate = none
  · simp [expand, dtstartAfter, hb, attachDefaultTz]
  · by_cases hc : v.rrule.isSome ∧ ruleInstants v dtz = []
    · simp [expand, dtstartAfter, hb, hc, stripTz, attachDefaultTz]
    · rcases hr : relocalize (eventsTzOf v dtz) (isAllday v)
          (filteredList v dtz) with e | l2 <;>
        simp [expand, dtstartAfter, hb, hc, hr, stripTz, attachDefaultTz]

/-- C3 counterexample: on `evC3` (COUNT=1 rule whose only instant is also
an EXDATE) rule evaluation yields one instant, so no exception is raised,
yet `expand` returns the empty list. -/
theorem exdate_empties_expansion :
    (expand evC3 0).2 = .ok [] ∧ ruleInstants evC3 0 = [600] := ⟨rfl, rfl⟩

/-- C3 amended: `expand` raises UnsupportedRecursion exactly when a
recurrence rule is present and its evaluation yields zero instants; however
the returned list can still be empty (without an exception) when excluded
dates remove every candidate instant. -/
theorem unsupported_iff_empty_rule (v : VEvent) (dtz : Int) :
    (expand v dtz).2 = .error .unsupportedRecursion ↔
      v.rrule.isSome ∧ ruleInstants v dtz = [] := by
  by_cases hb : v.rrule = none ∧ v.rdate = none
  · have hns : ¬ v.rrule.isSome := by simp [hb.1]
    simp [expand, hb, hns]
  · by_cases hc : v.rrule.isSome ∧ ruleInstants v dtz = []
    · simp [expand, hb, hc]
    · rcases hr : relocalize (eventsTzOf v dtz) (isAllday v)
          (filteredList v dtz) with e | l2
      · have hne := relocalize_error_ne _ _ _ _ hr
        simp [expand, hb, hc, hr, hne]
      · simp [expand, hb, hc, hr]

/-- C10: missing-metadata lookups return None instead of raising: with the
registry table present but no row for the collection, `get_ctag` is `ok
none`; with the master table present but no row for the href, `get_etag` is
`ok none`. -/
theorem missing_metadata_returns_none :
    (∀ (cal : String) (db : DB) (rows : List AccountRow),
      db.accounts = some rows → rows.filter (fun a => a.account = cal) = [] →
      get_ctag cal db = .ok none) ∧
    (∀ (href : String) (db : DB), db.calTables = true →
      db.table_m.filter (fun m => m.href = href) = [] →
      get_etag href db = .ok none) := by
  constructor
  · intro cal db rows hacc hfil
    simp [get_ctag, hacc, hfil]
  · intro href db htab hfil
    simp [get_etag, htab, hfil]

/-- Witness for C10 on the freshly initialized store. -/
theorem missing_metadata_returns_none_w :
    get_ctag "nope" dbInit = .ok none ∧ get_etag "x" dbInit = .ok none :=
  ⟨missing_metadata_returns_none.1 "nope" dbInit [⟨"cal", "", none⟩] rfl (by decide),
   missing_metadata_returns_none.2 "x" dbInit rfl rfl⟩

/-- C4 counterexample: opening the outdated store `dbOld` (version marker
2, no accounts table) raises OutdatedDbVersionError, but only after the
accounts table has been created — a table is touched before the failure. -/
theorem schema_check_creates_accounts :
    (sqliteInit "cal" dbOld).2 = some .outdatedDbVersion ∧
    dbOld.accounts = none ∧
    (sqliteInit "cal" dbOld).1.accounts = some ([] : List AccountRow) :=
  ⟨rfl, rfl, rfl⟩

/-- C4 amended: with a present, mismatching version marker, opening raises
OutdatedDbVersionError before the per-calendar tables are created and
before any row is written — but after the idempotent CREATE TABLE IF NOT
EXISTS of the version and accounts tables (which creates accounts when
absent). -/
theorem schema_mismatch_raises_early (cal : String) (db : DB) (r : Int)
    (rs : List Int) (h1 : db.version = some (r :: rs)) (h2 : r ≠ DB_VERSION) :
    (sqliteInit cal db).2 = some .outdatedDbVersion ∧
    (sqliteInit cal db).1.version = db.version ∧
    (sqliteInit cal db).1.accounts = some (db.accounts.getD []) ∧
    (sqliteInit cal db).1.calTables = db.calTables ∧
    (sqliteInit cal db).1.table_m = db.table_m ∧
    (sqliteInit cal db).1.table_d = db.table_d ∧
    (sqliteInit cal db).1.table_dt = db.table_dt := by
  have hs : sqliteInit cal db =
      ({ db with
          version := some (r :: rs)
          accounts := some (db.accounts.getD []) },
        some .outdatedDbVersion) := by
    simp [sqliteInit, createDefaultTables, checkTableVersion, h1, h2]
  rw [hs]
  simp [h1]

/-- Witness for C4's amended theorem at the concrete outdated store. -/
theorem schema_mismatch_raises_early_w :
    (sqliteInit "cal" dbOld).2 = some .outdatedDbVersion ∧
    (sqliteInit "cal" dbOld).1.version = dbOld.version ∧
    (sqliteInit "cal" dbOld).1.accounts = some (dbOld.accounts.getD []) ∧
    (sqliteInit "cal" dbOld).1.calTables = dbOld.calTables ∧
    (sqliteInit "cal" dbOld).1.table_m = dbOld.table_m ∧
    (sqliteInit "cal" dbOld).1.table_d = dbOld.table_d ∧
    (sqliteInit "cal" dbOld).1.table_dt = dbOld.table_dt :=
  schema_mismatch_raises_early "cal" dbOld 2 [] rfl (by decide)

/-- C2 (code bug): updating the timed event `evT1` twice with identical
bytes/handle/etag leaves one master row but two identical timed
occurrence rows for the single expanded interval — the delete loop covers
only the all-day and master tables, and the timed table has no UNIQUE
recuid, so its INSERT OR REPLACE appends. -/
theorem update_twice_timed_duplicates :
    dbTwice.table_m.length = 1 ∧ dbTwice.table_d.length = 0 ∧
    dbTwice.table_dt.length = 2 ∧
    ((expand (sanitize evT1) 0).2.toOption.getD []).length = 1 :=
  ⟨rfl, rfl, rfl, rfl⟩

/-- C9: the stored all-day occurrence 2014-04-09 (day 16169) to 2014-04-10
exclusive appears in the all-day range query for 2014-04-09 (default end =
start + 1 day) and not in the one for 2014-04-10. -/
theorem allday_range_boundary :
    dbC9.table_d = [⟨16169, 16170, "h9", "h9"⟩] ∧
    (get_allday_range dbC9 16169 none).map (fun r => r.recuid) = ["h9"] ∧
    get_allday_range dbC9 16170 none = [] :=
  ⟨rfl, rfl, rfl⟩

/-- C1 counterexample: a two-component `update` whose write fails inside
the second component reports failure but leaves the first component's rows
committed — the call's writes are not one atomic unit. -/
theorem update_not_call_atomic :
    (update 0 "h" "" [evT1, evT2] (some 5) dbInit).2 = false ∧
    (update 0 "h" "" [evT1, evT2] (some 5) dbInit).1 ≠ dbInit ∧
    (update 0 "h" "" [evT1, evT2] (some 5) dbInit).1 ≠
      (update 0 "h" "" [evT1, evT2] none dbInit).1 := by
  refine ⟨rfl, by decide, by decide⟩

theorem updateRun_take_eq (dtz : Int) (href etag : String) :
    ∀ (comps : List VEvent) (failAt : Option Nat) (db : DB),
      ∃ j, j ≤ comps.length ∧
        (updateRun dtz href etag comps failAt db).1 =
          (updateRun dtz href etag (comps.take j) none db).1 := by
  intro comps
  induction comps with
  | nil =>
    intro failAt db
    exact ⟨0, Nat.le_refl 0, rfl⟩
  | cons v rest ih =>
    intro failAt db
    rcases hplan : updateOnePlan v href etag dtz with e | stmts
    · refine ⟨0, Nat.zero_le _, ?_⟩
      simp [updateRun, hplan]
    · rcases failAt with _ | k
      · exact ⟨(v :: rest).length, Nat.le_refl _, by rw [List.take_length]⟩
      · by_cases hk : k < stmts.length
        · refine ⟨0, Nat.zero_le _, ?_⟩
          simp [updateRun, hplan, hk]
        · obtain ⟨j, hj, heq⟩ := ih (some (k - stmts.length)) (stmts.foldl applyStmt db)
          refine ⟨j + 1, Nat.succ_le_succ hj, ?_⟩
          have htake : (v :: rest).take (j + 1) = v :: rest.take j := rfl
          rw [htake]
          simp only [updateRun, hplan, hk, if_false]
          exact heq

/-- C1 amended: an `update` call is atomic per component, not as a whole: a
failure at any write leaves the committed store equal to the state after
fully applying some prefix of the call's components — each component's
occurrence and master writes are all-or-nothing (single commit at the end
of `_update_one`), so no occurrence/master mismatch becomes visible, but
components committed before the failing one stay committed. -/
theorem update_per_component_atomic (dtz : Int) (href etag : String)
    (comps : List VEvent) (failAt : Option Nat) (db : DB) :
    ∃ j, j ≤ comps.length ∧
      (update dtz href etag comps failAt db).1 =
        (update dtz href etag (comps.take j) none db).1 := by
  rcases comps with _ | ⟨v, rest⟩
  · exact ⟨0, Nat.le_refl 0, rfl⟩
  · obtain ⟨j, hj, heq⟩ := updateRun_take_eq dtz href etag (v :: rest) failAt db
    refine ⟨j, hj, ?_⟩
    rcases j with _ | j2
    · simpa [update, updateRun] using heq
    · simpa [update] using heq

/-- C6 counterexample: `evC6` has a rule with neither COUNT nor UNTIL, yet
`expand` returns a start instant (contributed by an RDATE) lying beyond
start + 15 years (even counting every year as 366 days). -/
theorem rdate_beyond_horizon :
    evC6.rrule = some ⟨10000000, none, none⟩ ∧
    ∃ p ∈ ((expand evC6 0).2.toOption.getD []),
      evC6.dtstart.wall + 15 * 366 * 1440 < p.1.wall := by
  exact ⟨rfl, by decide⟩

/-- C6 amended: for a rule with neither COUNT nor UNTIL (and positive
step), when the definition has no extra RDATEs, every start instant
`expand` returns is at most 15*365 days after the original start (wall
clock of the event's own frame); instants contributed by RDATEs are not
bounded by the synthetic horizon. -/
theorem rule_instants_bounded (v : VEvent) (dtz : Int) (r : RRule)
    (h1 : v.rrule = some r) (h2 : r.count = none) (h3 : r.untilDt = none)
    (h4 : v.rdate = none) (h5 : 0 < r.step) :
    ∀ p ∈ ((expand v dtz).2.toOption.getD []),
      p.1.wall ≤ v.dtstart.wall + 15 * 365 * 1440 := by
  have hb : ¬ (v.rrule = none ∧ v.rdate = none) := by simp [h1]
  by_cases hc : v.rrule.isSome ∧ ruleInstants v dtz = []
  · simp [expand, hb, hc, Except.toOption]
  · rcases hr : relocalize (eventsTzOf v dtz) (isAllday v) (filteredList v dtz)
        with e | l2
    · simp [expand, hb, hc, hr, Except.toOption]
    · intro p hp
      have hex : (expand v dtz).2 = .ok ((sortedDedup l2).map
          (fun s => (s, s.add (durationOf v)))) := by
        simp [expand, hb, hc, hr]
      rw [hex] at hp
      simp only [Except.toOption, Option.getD] at hp
      obtain ⟨x, hx, hpx⟩ := List.mem_map.mp hp
      have hx2 : x ∈ l2 := (mem_sortedDedup _ _).mp hx
      obtain ⟨z, hz, hle⟩ := relocalize_wall_le _ _ _ _ hr x hx2
      have hz2 : z ∈ preList v dtz := (List.mem_filter.mp hz).1
      have hpre : preList v dtz = (ruleInstants v dtz).map Dtv.naive := by
        simp [preList, h1, h4]
      rw [hpre] at hz2
      obtain ⟨t0, ht0, hzt⟩ := List.mem_map.mp hz2
      have hru : ruleInstants v dtz =
          rruleList ((stripStart (attachStart v dtz)).wall) r.step r.count
            (some ((stripStart (attachStart v dtz)).wall + 15 * 365 * 1440)) := by
        simp [ruleInstants, h1, h2, h3, Dtv.wall]
      rw [hru] at ht0
      have hbound := mem_rruleList_le _ _ _ _ h5 t0 ht0
      rw [wall_strip_attach] at hbound
      have hzw : z.wall = t0 := by
        rw [← hzt]
        rfl
      have hxw : x.wall ≤ t0 := by
        rw [← hzw]
        exact hle
      rw [← hpx]
      show x.wall ≤ v.dtstart.wall + 15 * 365 * 1440
      exact le_trans hxw hbound

/-- Witness for C6's amended theorem on the rule `evC6w` (no RDATEs). -/
theorem rule_instants_bounded_w :
    (Dtv.naive 600, Dtv.naive 660).1.wall ≤ evC6w.dtstart.wall + 15 * 365 * 1440 :=
  rule_instants_bounded evC6w 0 ⟨10000000, none, none⟩ rfl rfl rfl rfl (by decide)
    (Dtv.naive 600, Dtv.naive 660) (by decide)

/-- C7 counterexample: for the all-day event `evC7b` with an hourly COUNT=2
rule, the excluded instant (day 16169, 01:00) is among the produced
instants, yet adding it as EXDATE (`evC7a`) leaves the final deduplicated
result unchanged (both instants truncate to the same calendar date), so it
does not remove exactly one instant. -/
theorem exdate_allday_collapse :
    Dtv.naive 23283420 ∈ preList evC7b 0 ∧
    evC7a = { evC7b with exdate := some [.naive 23283420] } ∧
    ((expand evC7b 0).2).toOption.getD [] = [(Dtv.date 16169, Dtv.date 16170)] ∧
    ((expand evC7a 0).2).toOption.getD [] = [(Dtv.date 16169, Dtv.date 16170)] := by
  refine ⟨by decide, rfl, rfl, rfl⟩

/-- C7 amended: (a) excluding a date whose normalized value is not among
the surviving candidate instants (the instants from rule evaluation plus
extra dates that are not already excluded) leaves the result of `expand`
unchanged — both a never-produced date and an already-excluded one are
no-ops; (b) excluding a date whose normalized value is among the surviving
instants removes every instant equal to it: for a non-all-day definition
that has a recurrence rule or extra dates and on which `expand` succeeds,
the expansion still succeeds and the final deduplicated result shrinks by
exactly one interval — for all-day events
the truncation to calendar dates can collapse distinct instants, in which
case the result may shrink by nothing. -/
theorem exdate_removal :
    (∀ (v : VEvent) (dtz : Int) (d : Dtv),
      stripDtv (eventsTzOf v dtz) d ∉ filteredList v dtz →
      (expand { v with exdate := some (v.exdate.getD [] ++ [d]) } dtz).2 =
        (expand v dtz).2) ∧
    (∀ (v : VEvent) (dtz : Int) (d : Dtv) (L : List (Dtv × Dtv)),
      isAllday v = false →
      ¬ (v.rrule = none ∧ v.rdate = none) →
      stripDtv (eventsTzOf v dtz) d ∈ filteredList v dtz →
      (expand v dtz).2 = .ok L →
      ∃ L2, (expand { v with exdate := some (v.exdate.getD [] ++ [d]) } dtz).2 = .ok L2 ∧
        L2.length + 1 = L.length) := by
  constructor
  · intro v dtz d hnm
    by_cases hb : v.rrule = none ∧ v.rdate = none
    · have hb' : ({ v with exdate := some (v.exdate.getD [] ++ [d]) } : VEvent).rrule
          = none ∧ ({ v with exdate := some (v.exdate.getD [] ++ [d]) } : VEvent).rdate
          = none := hb
      simp [expand, hb, hb', attachDefaultTz, attachStart, durationOf]
    · have hb' : ¬ (({ v with exdate := some (v.exdate.getD [] ++ [d]) } : VEvent).rrule
          = none ∧ ({ v with exdate := some (v.exdate.getD [] ++ [d]) } : VEvent).rdate
          = none) := hb
      by_cases hc : v.rrule.isSome ∧ ruleInstants v dtz = []
      · have hc' : ({ v with exdate := some (v.exdate.getD [] ++ [d]) } : VEvent).rrule.isSome
            ∧ ruleInstants { v with exdate := some (v.exdate.getD [] ++ [d]) } dtz = [] := hc
        simp [expand, hb, hb', hc, hc']
      · have hc' : ¬ (({ v with exdate := some (v.exdate.getD [] ++ [d]) } : VEvent).rrule.isSome
            ∧ ruleInstants { v with exdate := some (v.exdate.getD [] ++ [d]) } dtz = []) := hc
        rw [expand_snd_branch _ dtz hb' hc', expand_snd_branch v dtz hb hc]
        have hfe : filteredList { v with exdate := some (v.exdate.getD [] ++ [d]) } dtz =
            filteredList v dtz := by
          show (preList v dtz).filter
              (fun s => s ∉ exdatesOf { v with exdate := some (v.exdate.getD [] ++ [d]) } dtz) =
            (preList v dtz).filter (fun s => s ∉ exdatesOf v dtz)
          have hex : exdatesOf { v with exdate := some (v.exdate.getD [] ++ [d]) } dtz =
              exdatesOf v dtz ++ [stripDtv (eventsTzOf v dtz) d] := by
            show (v.exdate.getD [] ++ [d]).map (stripDtv (eventsTzOf v dtz)) = _
            rw [List.map_append]
            rfl
          rw [hex]
          apply List.filter_congr
          intro x hx
          by_cases hxa : x ∈ exdatesOf v dtz
          · simp [List.mem_append, hxa]
          · have hxf : x ∈ filteredList v dtz := by
              refine List.mem_filter.mpr ⟨hx, ?_⟩
              simpa using hxa
            have hxd : ¬ x = stripDtv (eventsTzOf v dtz) d := fun h => hnm (h ▸ hxf)
            simp [List.mem_append, hxd, hxa]
        rw [hfe]
        rfl
  · intro v dtz d L hall hb hd hL
    have hc : ¬ (v.rrule.isSome ∧ ruleInstants v dtz = []) := by
      intro hcon
      have hErr : (expand v dtz).2 = Except.error ExpandError.unsupportedRecursion := by
        simp [expand, hb, hcon]
      rw [hErr] at hL
      exact absurd hL (by simp)
    have hb' : ¬ (({ v with exdate := some (v.exdate.getD [] ++ [d]) } : VEvent).rrule = none ∧
        ({ v with exdate := some (v.exdate.getD [] ++ [d]) } : VEvent).rdate = none) := hb
    have hc' : ¬ (({ v with exdate := some (v.exdate.getD [] ++ [d]) } : VEvent).rrule.isSome ∧
        ruleInstants { v with exdate := some (v.exdate.getD [] ++ [d]) } dtz = []) := hc
    have hall' : isAllday { v with exdate := some (v.exdate.getD [] ++ [d]) } = false := hall
    have hetz : eventsTzOf { v with exdate := some (v.exdate.getD [] ++ [d]) } dtz =
        eventsTzOf v dtz := rfl
    rw [expand_snd_branch v dtz hb hc, hall] at hL
    rw [expand_snd_branch _ dtz hb' hc', hall', hetz]
    have hsplit : filteredList { v with exdate := some (v.exdate.getD [] ++ [d]) } dtz =
        (filteredList v dtz).filter (fun x => ¬ x = stripDtv (eventsTzOf v dtz) d) := by
      show (preList v dtz).filter
          (fun s => s ∉ exdatesOf { v with exdate := some (v.exdate.getD [] ++ [d]) } dtz) = _
      have hex : exdatesOf { v with exdate := some (v.exdate.getD [] ++ [d]) } dtz =
          exdatesOf v dtz ++ [stripDtv (eventsTzOf v dtz) d] := by
        show (v.exdate.getD [] ++ [d]).map (stripDtv (eventsTzOf v dtz)) = _
        rw [List.map_append]
        rfl
      rw [hex]
      show _ = ((preList v dtz).filter (fun s => s ∉ exdatesOf v dtz)).filter
          (fun x => ¬ x = stripDtv (eventsTzOf v dtz) d)
      rw [List.filter_filter]
      apply List.filter_congr
      intro x hx
      simp [List.mem_append, not_or, and_comm]
    rw [hsplit]
    rcases hrel : relocalize (eventsTzOf v dtz) false (filteredList v dtz) with e | l0
    · rw [hrel] at hL
      exact absurd hL (by simp [Except.map])
    · rw [hrel] at hL
      simp only [Except.map] at hL
      injection hL with hLv
      obtain ⟨l1, hrel1, hlen⟩ := relocalize_filter_length (eventsTzOf v dtz)
        (filteredList v dtz) (stripDtv (eventsTzOf v dtz) d) l0 hrel hd
      rw [hrel1]
      refine ⟨(sortedDedup l1).map (fun s =>
        (s, s.add (durationOf { v with exdate := some (v.exdate.getD [] ++ [d]) }))), ?_, ?_⟩
      · simp [Except.map]
      · rw [← hLv]
        simp only [List.length_map, length_sortedDedup]
        exact hlen

/-- Witness for the amended C7 theorem: part (a) on `evT1` with an
unrelated excluded instant, part (b) on the daily COUNT=2 rule `evC7w`
excluding its second instant. -/
theorem exdate_removal_w :
    ((expand { evT1 with exdate := some (evT1.exdate.getD [] ++ [.naive 999]) } 0).2 =
      (expand evT1 0).2) ∧
    (∃ L2, (expand { evC7w with exdate := some (evC7w.exdate.getD [] ++ [.naive 2040]) } 0).2 =
        .ok L2 ∧
      L2.length + 1 =
        ([(Dtv.naive 600, Dtv.naive 660), (Dtv.naive 2040, Dtv.naive 2100)] :
          List (Dtv × Dtv)).length) :=
  ⟨exdate_removal.1 evT1 0 (.naive 999) (by decide),
   exdate_removal.2 evC7w 0 (.naive 2040)
     [(Dtv.naive 600, Dtv.naive 660), (Dtv.naive 2040, Dtv.naive 2100)]
     rfl (by decide) (by decide) rfl⟩

end Khal
